import Mathlib

/-!
Shallow embedding of `tslearn/preprocessing.py`: the time-series
preprocessing transforms `TimeSeriesResampler`, `TimeSeriesScalerMinMax`
and `TimeSeriesScalerMeanVariance`, together with the parts of
`tslearn.utils` (Dataset Normalizer, Shape Validator, series sizing) that
the module calls.

Numeric model: IEEE double values are embedded as rationals extended with
`inf`, `negInf` and `nan` (`Val`).  Arithmetic follows IEEE semantics for
the special values (NaN propagates; finite / 0 is a signed infinity or
NaN; 0 * inf is NaN), while finite arithmetic is exact rational
arithmetic.  The embedding has a single zero (no signed zero); no claim
below depends on the sign of a zero.  `Val.sqrt` maps a nonnegative
rational to `Rat.sqrt`, an approximation of the real square root that is
zero exactly on zero, which is the only property of the square root any
claim depends on.
-/

namespace Preproc

/-- An IEEE-double-like scalar: an exact rational, one of the two
infinities, or NaN (the missing-value sentinel used by the library). -/
inductive Val where
  | num (q : ℚ)
  | inf
  | negInf
  | nan
deriving DecidableEq

namespace Val

/-- True on a rational value or NaN: the value kinds that the spec's data
model admits in a dataset (a measurement or the missing sentinel). -/
def isData : Val → Bool
  | num _ => true
  | nan => true
  | _ => false

/-- True exactly on NaN, the missing-value sentinel. -/
def isNaN : Val → Bool
  | nan => true
  | _ => false

/-- IEEE negation. -/
def neg : Val → Val
  | num q => num (-q)
  | inf => negInf
  | negInf => inf
  | nan => nan

/-- IEEE addition: NaN propagates, inf + (-inf) is NaN. -/
def add : Val → Val → Val
  | num a, num b => num (a + b)
  | num _, inf => inf
  | inf, num _ => inf
  | num _, negInf => negInf
  | negInf, num _ => negInf
  | inf, inf => inf
  | negInf, negInf => negInf
  | inf, negInf => nan
  | negInf, inf => nan
  | _, _ => nan

/-- IEEE subtraction, defined as addition of the negation. -/
def sub (a b : Val) : Val := add a (neg b)

/-- IEEE multiplication: NaN propagates, 0 * (+-inf) is NaN. -/
def mul : Val → Val → Val
  | num a, num b => num (a * b)
  | num a, inf => if 0 < a then inf else if a < 0 then negInf else nan
  | inf, num a => if 0 < a then inf else if a < 0 then negInf else nan
  | num a, negInf => if 0 < a then negInf else if a < 0 then inf else nan
  | negInf, num a => if 0 < a then negInf else if a < 0 then inf else nan
  | inf, inf => inf
  | inf, negInf => negInf
  | negInf, inf => negInf
  | negInf, negInf => inf
  | _, _ => nan

/-- IEEE division: NaN propagates, finite / 0 is a signed infinity
(or NaN for 0 / 0), finite / inf is 0, inf / inf is NaN.  Without a
signed zero, inf / 0 takes the sign of the dividend. -/
def div : Val → Val → Val
  | num a, num b =>
      if b = 0 then (if 0 < a then inf else if a < 0 then negInf else nan)
      else num (a / b)
  | num _, inf => num 0
  | num _, negInf => num 0
  | inf, num b => if 0 ≤ b then inf else negInf
  | negInf, num b => if 0 ≤ b then negInf else inf
  | _, _ => nan

/-- Square root: NaN on negatives and NaN, `Rat.sqrt` on nonnegative
rationals (exactly zero iff the argument is zero, which is the only fact
about the square root the development uses). -/
def sqrt : Val → Val
  | num q => if q < 0 then nan else num (Rat.sqrt q)
  | inf => inf
  | negInf => nan
  | nan => nan

instance : Add Val := ⟨add⟩
instance : Sub Val := ⟨sub⟩
instance : Mul Val := ⟨mul⟩
instance : Div Val := ⟨div⟩
instance : Neg Val := ⟨neg⟩

/-- Order test on non-NaN values, used by the min/max reductions. -/
def vle : Val → Val → Bool
  | num a, num b => decide (a ≤ b)
  | negInf, _ => true
  | _, inf => true
  | _, _ => false

/-- Binary minimum of non-NaN values. -/
def vmin (a b : Val) : Val := if vle a b then a else b

/-- Binary maximum of non-NaN values. -/
def vmax (a b : Val) : Val := if vle a b then b else a

end Val

open Val

/-- The non-NaN entries of a list, in order: the samples `numpy`'s
nan-aggregations actually reduce over. -/
def validVals (l : List Val) : List Val := l.filter (fun v => !v.isNaN)

/-- `numpy.nanmin` over a 1-d slice: minimum of the non-NaN entries,
NaN when every entry is NaN. -/
def nanminL (l : List Val) : Val :=
  match validVals l with
  | [] => Val.nan
  | x :: xs => xs.foldl vmin x

/-- `numpy.nanmax` over a 1-d slice. -/
def nanmaxL (l : List Val) : Val :=
  match validVals l with
  | [] => Val.nan
  | x :: xs => xs.foldl vmax x

/-- `numpy.nansum`-style sum of the non-NaN entries. -/
def nansumL (l : List Val) : Val :=
  (validVals l).foldl Val.add (Val.num 0)

/-- `numpy.nanmean` over a 1-d slice: sum of non-NaN entries divided by
their count; NaN on an all-NaN slice (numpy's empty-slice result). -/
def nanmeanL (l : List Val) : Val :=
  match validVals l with
  | [] => Val.nan
  | vs => Val.div (nansumL l) (Val.num (vs.length : ℚ))

/-- `numpy.nanstd` over a 1-d slice: square root of the mean of squared
deviations from the nan-mean (population standard deviation), NaN
positions ignored. -/
def nanstdL (l : List Val) : Val :=
  Val.sqrt (nanmeanL (l.map (fun v =>
    (v - nanmeanL l) * (v - nanmeanL l))))

/-- One time step: a vector of `d` scalar values. -/
abbrev Step := List Val

/-- One time series: an ordered list of steps. -/
abbrev Series := List Step

/-- A dataset as handed to a transform, possibly ragged. -/
abbrev RawDataset := List Series

/-- A canonical (rectangular, NaN-padded) dataset. -/
abbrev Dataset := List Series

/-- Feature dimensionality of a raw dataset: the widest step. -/
def dOf (X : RawDataset) : ℕ :=
  (X.map (fun s => (s.map List.length).foldr max 0)).foldr max 0

/-- Maximum series length of a raw dataset. -/
def maxLenOf (X : RawDataset) : ℕ :=
  (X.map List.length).foldr max 0

/-- Pad a step on the right with NaN up to width `d`. -/
def padStep (d : ℕ) (st : Step) : Step :=
  st ++ List.replicate (d - st.length) Val.nan

/-- Modelled from the spec: the Dataset Normalizer
(`tslearn.utils.to_time_series_dataset`, not under `src/`).  It coerces a
ragged dataset into the canonical rectangular 3-d layout, right-padding
shorter series (and narrower steps) with the missing-value sentinel up to
the dataset's maximum length and width. -/
def toTSDataset (X : RawDataset) : Dataset :=
  X.map (fun s =>
    s.map (padStep (dOf X)) ++
      List.replicate (maxLenOf X - s.length) (List.replicate (dOf X) Val.nan))

/-- True when every value of the step is the missing sentinel, i.e. the
step is pure padding. -/
def stepAllNaN (st : Step) : Bool := st.all Val.isNaN

/-- Modelled from the spec: the valid length of a series
(`tslearn.utils.ts_size`, not under `src/`): the series length with the
trailing run of all-sentinel padding steps removed, "scanning from the
end for the first non-sentinel step". -/
def tsSize (s : Series) : ℕ := (s.reverse.dropWhile stepAllNaN).length

/-- Modelled from the spec: `tslearn.utils.check_equal_size` (not under
`src/`): whether all series of the dataset share a common valid length. -/
def checkEqualSize (X : Dataset) : Bool :=
  match X with
  | [] => true
  | s :: rest => rest.all (fun t => tsSize t = tsSize s)

/-- Canonical shape `(n_series, max_len, d)` of a dataset. -/
def dims (X : RawDataset) : ℕ × ℕ × ℕ := (X.length, maxLenOf X, dOf X)

/-- The column of series `ts` in feature dimension `di`. -/
def col (ts : Series) (di : ℕ) : List Val :=
  ts.map (fun st => st.getD di Val.nan)

/-- Element access into a canonical dataset (series `i`, step `t`,
dimension `di`), with NaN defaults out of range. -/
def entry (X : Dataset) (i t di : ℕ) : Val :=
  ((X.getD i []).getD t []).getD di Val.nan

/-- `numpy.linspace 0 1 n` in exact rationals: `n` evenly spaced points
from 0 to 1 inclusive (`[0]` for `n = 1`, empty for `n = 0`). -/
def linspace01 (n : ℕ) : List ℚ :=
  if n = 1 then [0]
  else (List.range n).map (fun k : ℕ => (k : ℚ) / ((n : ℚ) - 1))

/-- Index of the interpolation segment bracketing query `q` among the
`L` nodes `linspace01 L` (clamped into the last segment at the right
end). -/
def interpIdx (L : ℕ) (q : ℚ) : ℕ :=
  min (Int.floor (q * ((L : ℚ) - 1))).toNat (L - 2)

/-- Evaluation at query `q ∈ [0,1]` of the degree-one spline through the
points `(linspace01 L, ys)` — `scipy.interpolate.interp1d` with
`kind="slinear"`.  The bracketing segment `j` is located exactly, and the
value is the de-Boor convex combination `(1-α)·ys[j] + α·ys[j+1]` in
`Val` arithmetic (so a NaN at a neighbouring node contaminates the
result, as the floating-point evaluation does). -/
def slinearEval (L : ℕ) (ys : List Val) (q : ℚ) : Val :=
  Val.add
    (Val.mul (Val.num (1 - (q * ((L : ℚ) - 1) - (interpIdx L q : ℚ))))
      (ys.getD (interpIdx L q) Val.nan))
    (Val.mul (Val.num (q * ((L : ℚ) - 1) - (interpIdx L q : ℚ)))
      (ys.getD (interpIdx L q + 1) Val.nan))

/-- Error raised out of `TimeSeriesResampler.transform`: scipy's
`interp1d` refuses node arrays with fewer than two entries. -/
inductive RErr where
  | interpTooFewPoints
deriving DecidableEq

/-- `TimeSeriesResampler._transform_unit_sz`: every series collapses to a
single step holding, per dimension, the nan-mean of that series'
column (`numpy.nanmean(X[i], axis=0, keepdims=True)`). -/
def transformUnitSz (X : Dataset) (d : ℕ) : Dataset :=
  X.map (fun ts => [(List.range d).map (fun di => nanmeanL (col ts di))])

/-- `TimeSeriesResampler.transform`: normalize the dataset; if the
configured size is 1, aggregate via `_transform_unit_sz`; otherwise, for
each series use its padded length when the dataset is equal-size and its
own valid length otherwise, and resample each dimension by piecewise
linear interpolation at `sz_` evenly spaced queries.  `interp1d` fails
when a series contributes fewer than two interpolation nodes. -/
def resamplerTransform (sz_ : ℕ) (X : RawDataset) : Except RErr Dataset :=
  let X' := toTSDataset X
  if sz_ = 1 then Except.ok (transformUnitSz X' (dOf X))
  else
    let maxLen := maxLenOf X
    let eq := checkEqualSize X'
    if X'.all (fun ts => 2 ≤ (if eq then maxLen else tsSize ts)) then
      Except.ok (X'.map (fun ts =>
        let L := if eq then maxLen else tsSize ts
        (linspace01 sz_).map (fun q =>
          (List.range (dOf X)).map (fun di =>
            slinearEval L (col (ts.take L) di) q))))
    else Except.error RErr.interpTooFewPoints

/-- Errors raised out of the two scalers' `transform`. -/
inductive SErr where
  | invalidConfiguration (lo hi : ℚ)
  | notFitted
  | shapeMismatch
deriving DecidableEq

/-- Warning-channel notices. -/
inductive Warn where
  | deprecatedMin
  | deprecatedMax
deriving DecidableEq

/-- `TimeSeriesScalerMinMax`: target interval plus the two legacy
overrides, and the shape recorded at fit time (absent before `fit`). -/
structure MinMaxScaler where
  value_range : ℚ × ℚ
  min? : Option ℚ
  max? : Option ℚ
  fitShape : Option (ℕ × ℕ × ℕ)
deriving DecidableEq

/-- The deprecation warnings emitted at the top of
`TimeSeriesScalerMinMax.transform`: one per supplied legacy parameter. -/
def legacyWarnings (s : MinMaxScaler) : List Warn :=
  (match s.min? with | some _ => [Warn.deprecatedMin] | none => []) ++
  (match s.max? with | some _ => [Warn.deprecatedMax] | none => [])

/-- The effective target interval after the legacy overlay: a supplied
legacy `min` replaces the lower end, a supplied legacy `max` the upper
end of `value_range`. -/
def effRange (s : MinMaxScaler) : ℚ × ℚ :=
  ((match s.min? with | some m => m | none => s.value_range.1),
   (match s.max? with | some m => m | none => s.value_range.2))

/-- Modelled from the spec: the Shape Validator
(`tslearn.utils.check_dims`, not under `src/`): a transform-time input
must be shape-compatible with the `(n_series, max_len, d)` recorded at
fit — same `d` and same per-series layout, the series count aside. -/
def checkDims (X : RawDataset) (fitDims : ℕ × ℕ × ℕ) : Bool :=
  maxLenOf X = fitDims.2.1 && dOf X = fitDims.2.2

/-- `TimeSeriesScalerMinMax.fit`: record the dataset's canonical shape;
nothing else changes (no value statistic is learned). -/
def minMaxFit (s : MinMaxScaler) (X : RawDataset) : MinMaxScaler :=
  { s with fitShape := some (dims X) }

/-- `TimeSeriesScalerMinMax.transform`: emit deprecation warnings and
apply the legacy overlay; reject an inverted interval (echoing the
offending pair) before touching the data; then require a previous fit
and a compatible shape; finally rescale each entry by the source's
`nomin / range_t + lo` with per-series per-dimension nan-min/nan-max. -/
def minMaxTransform (s : MinMaxScaler) (X : RawDataset) :
    List Warn × Except SErr Dataset :=
  let warns := legacyWarnings s
  let lo := (effRange s).1
  let hi := (effRange s).2
  if hi ≤ lo then (warns, Except.error (SErr.invalidConfiguration lo hi))
  else
    match s.fitShape with
    | none => (warns, Except.error SErr.notFitted)
    | some fd =>
      if checkDims X fd then
        let X' := toTSDataset X
        (warns, Except.ok (X'.map (fun ts =>
          ts.map (fun st =>
            (List.range (dOf X)).map (fun di =>
              let mn := nanminL (col ts di)
              let mx := nanmaxL (col ts di)
              (st.getD di Val.nan - mn) * Val.num (hi - lo) / (mx - mn) +
                Val.num lo)))))
      else (warns, Except.error SErr.shapeMismatch)

/-- `TimeSeriesScalerMeanVariance`: target moments and the shape recorded
at fit time. -/
structure MeanVarScaler where
  mu : ℚ
  std : ℚ
  fitShape : Option (ℕ × ℕ × ℕ)
deriving DecidableEq

/-- `TimeSeriesScalerMeanVariance.fit`: record the canonical shape. -/
def meanVarFit (s : MeanVarScaler) (X : RawDataset) : MeanVarScaler :=
  { s with fitShape := some (dims X) }

/-- `TimeSeriesScalerMeanVariance.transform`: require a previous fit and
a compatible shape, then standardize each entry by the source's
`(X - mean_t) * std / std_t + mu`, where a per-series per-dimension
nan-std equal to exactly zero is first replaced by one
(`std_t[std_t == 0.] = 1.`). -/
def meanVarTransform (s : MeanVarScaler) (X : RawDataset) :
    Except SErr Dataset :=
  match s.fitShape with
  | none => Except.error SErr.notFitted
  | some fd =>
    if checkDims X fd then
      let X' := toTSDataset X
      Except.ok (X'.map (fun ts =>
        ts.map (fun st =>
          (List.range (dOf X)).map (fun di =>
            let m := nanmeanL (col ts di)
            let sd := nanstdL (col ts di)
            let sd' := if sd = Val.num 0 then Val.num 1 else sd
            (st.getD di Val.nan - m) * Val.num s.std / sd' + Val.num s.mu))))
    else Except.error SErr.shapeMismatch

instance {ε α : Type} [DecidableEq ε] [DecidableEq α] :
    DecidableEq (Except ε α) := fun x y =>
  match x, y with
  | Except.ok a, Except.ok b =>
      if h : a = b then isTrue (by rw [h])
      else isFalse (fun he => h (Except.ok.inj he))
  | Except.error e, Except.error f =>
      if h : e = f then isTrue (by rw [h])
      else isFalse (fun he => h (Except.error.inj he))
  | Except.ok _, Except.error _ => isFalse (fun he => Except.noConfusion he)
  | Except.error _, Except.ok _ => isFalse (fun he => Except.noConfusion he)

/-! ### Helper lemmas about `Val` arithmetic -/

theorem val_add_def (a b : Val) : a + b = Val.add a b := rfl

theorem val_sub_def (a b : Val) : a - b = Val.sub a b := rfl

theorem val_mul_def (a b : Val) : a * b = Val.mul a b := rfl

theorem val_div_def (a b : Val) : a / b = Val.div a b := rfl

theorem nan_add (v : Val) : Val.add Val.nan v = Val.nan := by cases v <;> rfl

theorem add_nan (v : Val) : Val.add v Val.nan = Val.nan := by cases v <;> rfl

theorem nan_sub (v : Val) : Val.sub Val.nan v = Val.nan := by
  cases v <;> rfl

theorem sub_nan (v : Val) : Val.sub v Val.nan = Val.nan := by
  cases v <;> rfl

theorem nan_mul (v : Val) : Val.mul Val.nan v = Val.nan := by cases v <;> rfl

theorem mul_nan (v : Val) : Val.mul v Val.nan = Val.nan := by
  cases v <;> simp [Val.mul]

theorem nan_div (v : Val) : Val.div Val.nan v = Val.nan := by cases v <;> rfl

theorem num_add_num (a b : ℚ) :
    Val.add (Val.num a) (Val.num b) = Val.num (a + b) := rfl

theorem num_sub_num (a b : ℚ) :
    Val.sub (Val.num a) (Val.num b) = Val.num (a - b) := by
  simp [Val.sub, Val.add, Val.neg, sub_eq_add_neg]

theorem num_mul_num (a b : ℚ) :
    Val.mul (Val.num a) (Val.num b) = Val.num (a * b) := rfl

theorem num_div_num (a b : ℚ) (h : b ≠ 0) :
    Val.div (Val.num a) (Val.num b) = Val.num (a / b) := by
  simp [Val.div, h]

theorem zero_div_zero :
    Val.div (Val.num 0) (Val.num 0) = Val.nan := by simp [Val.div]

/-! ### Helper lemmas about lists and the nan-aggregations -/

theorem foldr_max_le_mem {l : List ℕ} {a : ℕ} (b : ℕ) (h : a ∈ l) :
    a ≤ l.foldr max b := by
  induction l with
  | nil => cases h
  | cons x xs ih =>
    rcases List.mem_cons.1 h with rfl | hm
    · exact le_max_left _ _
    · exact (ih hm).trans (le_max_right _ _)

theorem length_le_maxLenOf {X : RawDataset} {s : Series} (h : s ∈ X) :
    s.length ≤ maxLenOf X :=
  foldr_max_le_mem 0 (List.mem_map_of_mem List.length h)

theorem toTSDataset_length (X : RawDataset) :
    (toTSDataset X).length = X.length := by
  simp [toTSDataset]

theorem toTSDataset_series_length {X : RawDataset} {i : ℕ}
    (h : i < X.length) :
    ((toTSDataset X).getD i []).length = maxLenOf X := by
  have h' : i < (toTSDataset X).length := by simpa [toTSDataset_length]
  rw [List.getD_eq_getElem _ _ h']
  simp only [toTSDataset, List.getElem_map]
  have hmem : X[i] ∈ X := List.getElem_mem _
  have hle : X[i].length ≤ maxLenOf X := length_le_maxLenOf hmem
  simp [Nat.add_sub_cancel' hle]

theorem tsSize_le_length (s : Series) : tsSize s ≤ s.length := by
  have h := (List.dropWhile_sublist (l := s.reverse) (p := stepAllNaN)).length_le
  simpa [tsSize] using h

theorem validVals_sublist (l : List Val) : (validVals l).Sublist l :=
  List.filter_sublist _

theorem mem_validVals {l : List Val} {v : Val} (hm : v ∈ l)
    (hv : v.isNaN = false) : v ∈ validVals l := by
  simp [validVals, List.mem_filter, hm, hv]

theorem validVals_all_const {l : List Val} {c : ℚ}
    (h : ∀ v ∈ l, v = Val.nan ∨ v = Val.num c) :
    ∀ v ∈ validVals l, v = Val.num c := by
  intro v hv
  have hv' := (validVals_sublist l).mem hv
  rcases h v hv' with rfl | rfl
  · simp [validVals, List.mem_filter, Val.isNaN] at hv
  · rfl

theorem foldl_vmin_const {xs : List Val} {c : ℚ}
    (h : ∀ v ∈ xs, v = Val.num c) :
    xs.foldl vmin (Val.num c) = Val.num c := by
  induction xs with
  | nil => rfl
  | cons x xs ih =>
    have hx := h x (List.mem_cons_self _ _)
    subst hx
    have : vmin (Val.num c) (Val.num c) = Val.num c := by
      simp [vmin]
    rw [List.foldl_cons, this]
    exact ih (fun v hv => h v (List.mem_cons_of_mem _ hv))

theorem foldl_vmax_const {xs : List Val} {c : ℚ}
    (h : ∀ v ∈ xs, v = Val.num c) :
    xs.foldl vmax (Val.num c) = Val.num c := by
  induction xs with
  | nil => rfl
  | cons x xs ih =>
    have hx := h x (List.mem_cons_self _ _)
    subst hx
    have : vmax (Val.num c) (Val.num c) = Val.num c := by
      simp [vmax]
    rw [List.foldl_cons, this]
    exact ih (fun v hv => h v (List.mem_cons_of_mem _ hv))

theorem nanminL_const {l : List Val} {c : ℚ}
    (h : ∀ v ∈ l, v = Val.nan ∨ v = Val.num c) (hm : Val.num c ∈ l) :
    nanminL l = Val.num c := by
  have hall := validVals_all_const h
  have hmem : Val.num c ∈ validVals l := mem_validVals hm rfl
  unfold nanminL
  rcases hv : validVals l with _ | ⟨x, xs⟩
  · rw [hv] at hmem; cases hmem
  · rw [hv] at hall
    have hx : x = Val.num c := hall x (List.mem_cons_self _ _)
    subst hx
    exact foldl_vmin_const (fun v hv' => hall v (List.mem_cons_of_mem _ hv'))

theorem nanmaxL_const {l : List Val} {c : ℚ}
    (h : ∀ v ∈ l, v = Val.nan ∨ v = Val.num c) (hm : Val.num c ∈ l) :
    nanmaxL l = Val.num c := by
  have hall := validVals_all_const h
  have hmem : Val.num c ∈ validVals l := mem_validVals hm rfl
  unfold nanmaxL
  rcases hv : validVals l with _ | ⟨x, xs⟩
  · rw [hv] at hmem; cases hmem
  · rw [hv] at hall
    have hx : x = Val.num c := hall x (List.mem_cons_self _ _)
    subst hx
    exact foldl_vmax_const (fun v hv' => hall v (List.mem_cons_of_mem _ hv'))

/-! ### Bridging the nan-aggregations to exact rational arithmetic on
data-only slices (every entry a rational or the sentinel) -/

/-- The rational carried by a finite value, if any. -/
def toQ? : Val → Option ℚ
  | Val.num q => some q
  | _ => none

/-- The rationals of a slice, in order (sentinels skipped). -/
def qvals (l : List Val) : List ℚ := l.filterMap toQ?

/-- A slice respecting the spec's data model: every entry is a
measurement or the missing sentinel, never an infinity. -/
def IsDataList (l : List Val) : Prop := ∀ v ∈ l, v.isData = true

theorem isData_cases {v : Val} (h : v.isData = true) :
    v = Val.nan ∨ ∃ q, v = Val.num q := by
  cases v with
  | num q => exact Or.inr ⟨q, rfl⟩
  | nan => exact Or.inl rfl
  | inf => simp [Val.isData] at h
  | negInf => simp [Val.isData] at h

theorem validVals_eq_map_num {l : List Val} (h : IsDataList l) :
    validVals l = (qvals l).map Val.num := by
  induction l with
  | nil => rfl
  | cons x xs ih =>
    have hx := h x (List.mem_cons_self _ _)
    have hxs : IsDataList xs := fun v hv => h v (List.mem_cons_of_mem _ hv)
    rcases isData_cases hx with rfl | ⟨q, rfl⟩
    · simpa [validVals, qvals, toQ?, Val.isNaN] using ih hxs
    · simpa [validVals, qvals, toQ?, Val.isNaN] using ih hxs

theorem foldl_add_map_num (qs : List ℚ) (a : ℚ) :
    (qs.map Val.num).foldl Val.add (Val.num a) = Val.num (a + qs.sum) := by
  induction qs generalizing a with
  | nil => simp
  | cons q qs ih =>
    simp only [List.map_cons, List.foldl_cons, num_add_num, ih, List.sum_cons]
    ring_nf

theorem nansumL_data {l : List Val} (h : IsDataList l) :
    nansumL l = Val.num (qvals l).sum := by
  unfold nansumL
  rw [validVals_eq_map_num h, foldl_add_map_num]
  norm_num

theorem nanmeanL_data {l : List Val} (h : IsDataList l)
    (hne : qvals l ≠ []) :
    nanmeanL l = Val.num ((qvals l).sum / ((qvals l).length : ℚ)) := by
  rcases hq : qvals l with _ | ⟨q, qs⟩
  · exact absurd hq hne
  · have hcast : (((q :: qs).length : ℕ) : ℚ) ≠ 0 := by
      have hpos : (0 : ℚ) < (((q :: qs).length : ℕ) : ℚ) := by
        exact_mod_cast Nat.succ_pos qs.length
      exact ne_of_gt hpos
    unfold nanmeanL
    rw [validVals_eq_map_num h, hq, List.map_cons]
    simp only [nansumL_data h, hq]
    rw [num_div_num _ _ (by simpa using hcast)]
    simp

theorem nanmeanL_nodata {l : List Val} (h : IsDataList l)
    (h0 : qvals l = []) : nanmeanL l = Val.nan := by
  unfold nanmeanL
  rw [validVals_eq_map_num h, h0, List.map_nil]

/-- With a rational mean, the squared-deviation slice of a data-only
slice is again data-only, with the expected rationals. -/
theorem qvals_devs {l : List Val} (h : IsDataList l) (μ : ℚ) :
    IsDataList (l.map (fun v => (v - Val.num μ) * (v - Val.num μ))) ∧
      qvals (l.map (fun v => (v - Val.num μ) * (v - Val.num μ))) =
        (qvals l).map (fun q => (q - μ) * (q - μ)) := by
  induction l with
  | nil => exact ⟨(fun v hv => by cases hv), rfl⟩
  | cons x xs ih =>
    have hx := h x (List.mem_cons_self _ _)
    have hxs : IsDataList xs := fun v hv => h v (List.mem_cons_of_mem _ hv)
    obtain ⟨ih1, ih2⟩ := ih hxs
    rcases isData_cases hx with rfl | ⟨q, rfl⟩
    · constructor
      · intro v hv
        rw [List.map_cons] at hv
        rcases List.mem_cons.1 hv with rfl | hv'
        · simp [val_sub_def, val_mul_def, nan_sub, nan_mul, Val.isData]
        · exact ih1 v hv'
      · simpa [qvals, toQ?, val_sub_def, val_mul_def, nan_sub, nan_mul]
          using ih2
    · constructor
      · intro v hv
        rw [List.map_cons] at hv
        rcases List.mem_cons.1 hv with rfl | hv'
        · simp [val_sub_def, val_mul_def, num_sub_num, num_mul_num, Val.isData]
        · exact ih1 v hv'
      · simpa [qvals, toQ?, val_sub_def, val_mul_def, num_sub_num,
          num_mul_num] using ih2

theorem sum_nonneg_all_zero {L : List ℚ} (h : ∀ x ∈ L, 0 ≤ x)
    (hs : L.sum = 0) : ∀ x ∈ L, x = 0 := by
  induction L with
  | nil => intro x hx; cases hx
  | cons y ys ih =>
    have hy : 0 ≤ y := h y (List.mem_cons_self _ _)
    have hys : ∀ x ∈ ys, 0 ≤ x := fun x hx => h x (List.mem_cons_of_mem _ hx)
    have hsum : 0 ≤ ys.sum := List.sum_nonneg hys
    rw [List.sum_cons] at hs
    have hy0 : y = 0 := le_antisymm (by linarith) hy
    intro x hx
    rcases List.mem_cons.1 hx with rfl | hx'
    · exact hy0
    · exact ih hys (by linarith) x hx'

theorem rat_sqrt_eq_zero {v : ℚ} (hv : 0 ≤ v) (h : Rat.sqrt v = 0) :
    v = 0 := by
  unfold Rat.sqrt at h
  have hden : Nat.sqrt v.den ≠ 0 := by
    rw [ne_eq, Nat.sqrt_eq_zero]
    exact v.den_nz
  rw [Rat.mkRat_eq_zero hden] at h
  unfold Int.sqrt at h
  have h1 : Nat.sqrt v.num.toNat = 0 := Int.natCast_eq_zero.1 h
  have h2 : v.num.toNat = 0 := Nat.sqrt_eq_zero.1 h1
  have h3 : (0 : ℤ) ≤ v.num := Rat.num_nonneg.2 hv
  have h4 : v.num = 0 := by omega
  exact Rat.num_eq_zero.1 h4

/-- A data-only slice whose computed nan-std is exactly zero has at least
one valid sample, its nan-mean is the rational mean of the valid samples,
and every entry is either the sentinel or exactly that mean. -/
theorem nanstd_zero_constant {l : List Val} (h : IsDataList l)
    (hstd : nanstdL l = Val.num 0) :
    qvals l ≠ [] ∧
      nanmeanL l = Val.num ((qvals l).sum / ((qvals l).length : ℚ)) ∧
      ∀ v ∈ l, v = Val.nan ∨
        v = Val.num ((qvals l).sum / ((qvals l).length : ℚ)) := by
  have hne : qvals l ≠ [] := by
    intro h0
    have hm := nanmeanL_nodata h h0
    unfold nanstdL at hstd
    rw [hm] at hstd
    have hall : ∀ v ∈ l, v = Val.nan := by
      intro v hv
      rcases isData_cases (h v hv) with rfl | ⟨q, rfl⟩
      · rfl
      · exfalso
        have : q ∈ qvals l := by
          simp only [qvals, List.mem_filterMap]
          exact ⟨Val.num q, hv, rfl⟩
        rw [h0] at this
        cases this
    have hmap : l.map (fun v => (v - Val.nan) * (v - Val.nan)) =
        l.map (fun _ => Val.nan) := by
      apply List.map_congr_left
      intro v hv
      rw [hall v hv]
      rfl
    rw [hmap] at hstd
    have : IsDataList (l.map (fun _ : Val => Val.nan)) := by
      intro v hv
      rcases List.mem_map.1 hv with ⟨w, _, rfl⟩
      rfl
    have hq0 : qvals (l.map (fun _ : Val => Val.nan)) = [] := by
      simp [qvals, toQ?, List.filterMap_eq_nil_iff]
    rw [nanmeanL_nodata this hq0] at hstd
    simp [Val.sqrt] at hstd
  set μ : ℚ := (qvals l).sum / ((qvals l).length : ℚ) with hμ
  have hmean : nanmeanL l = Val.num μ := nanmeanL_data h hne
  refine ⟨hne, hmean, ?_⟩
  unfold nanstdL at hstd
  rw [hmean] at hstd
  obtain ⟨hdata', hq'⟩ := qvals_devs h μ
  have hne' : qvals (l.map (fun v => (v - Val.num μ) * (v - Val.num μ))) ≠ [] := by
    rw [hq']
    simp only [ne_eq, List.map_eq_nil_iff]
    exact hne
  rw [nanmeanL_data hdata' hne', hq', List.length_map] at hstd
  set V : ℚ := ((qvals l).map (fun q => (q - μ) * (q - μ))).sum /
      ((qvals l).length : ℚ) with hV
  have hsq_nonneg : ∀ x ∈ (qvals l).map (fun q => (q - μ) * (q - μ)), 0 ≤ x := by
    intro x hx
    rcases List.mem_map.1 hx with ⟨q, _, rfl⟩
    exact mul_self_nonneg _
  have hV_nonneg : 0 ≤ V := by
    apply div_nonneg (List.sum_nonneg hsq_nonneg)
    positivity
  have hVlt : ¬ V < 0 := not_lt.2 hV_nonneg
  simp only [Val.sqrt, hVlt, if_false] at hstd
  have hsqrt : Rat.sqrt V = 0 := by
    injection hstd
  have hV0 : V = 0 := rat_sqrt_eq_zero hV_nonneg hsqrt
  have hlen0 : ((qvals l).length : ℚ) ≠ 0 := by
    rcases hq : qvals l with _ | ⟨y, ys⟩
    · exact absurd hq hne
    · have hpos : (0 : ℚ) < (((y :: ys).length : ℕ) : ℚ) := by
        exact_mod_cast Nat.succ_pos ys.length
      exact ne_of_gt hpos
  have hsum0 : ((qvals l).map (fun q => (q - μ) * (q - μ))).sum = 0 := by
    have := hV0
    rw [hV, div_eq_zero_iff] at this
    rcases this with h' | h'
    · exact h'
    · exact absurd h' hlen0
  have hall0 := sum_nonneg_all_zero hsq_nonneg hsum0
  intro v hv
  rcases isData_cases (h v hv) with rfl | ⟨q, rfl⟩
  · exact Or.inl rfl
  · right
    have hqm : q ∈ qvals l := by
      simp only [qvals, List.mem_filterMap]
      exact ⟨Val.num q, hv, rfl⟩
    have : (q - μ) * (q - μ) = 0 :=
      hall0 _ (List.mem_map.2 ⟨q, hqm, rfl⟩)
    have hq0 : q = μ := by
      have := mul_self_eq_zero.1 this
      linarith
    rw [hq0]

theorem num_div_nan (a : ℚ) : Val.div (Val.num a) Val.nan = Val.nan := rfl

theorem foldl_vmin_map_num (qs : List ℚ) (a : ℚ) :
    ∃ r : ℚ, (qs.map Val.num).foldl vmin (Val.num a) = Val.num r := by
  induction qs generalizing a with
  | nil => exact ⟨a, rfl⟩
  | cons q qs ih =>
    rw [List.map_cons, List.foldl_cons]
    have hsplit : vmin (Val.num a) (Val.num q) = Val.num a ∨
        vmin (Val.num a) (Val.num q) = Val.num q := by
      unfold vmin
      by_cases h : vle (Val.num a) (Val.num q) = true <;> simp [h]
    rcases hsplit with h | h <;> rw [h]
    · exact ih a
    · exact ih q

theorem foldl_vmax_map_num (qs : List ℚ) (a : ℚ) :
    ∃ r : ℚ, (qs.map Val.num).foldl vmax (Val.num a) = Val.num r := by
  induction qs generalizing a with
  | nil => exact ⟨a, rfl⟩
  | cons q qs ih =>
    rw [List.map_cons, List.foldl_cons]
    have hsplit : vmax (Val.num a) (Val.num q) = Val.num a ∨
        vmax (Val.num a) (Val.num q) = Val.num q := by
      unfold vmax
      by_cases h : vle (Val.num a) (Val.num q) = true <;> simp [h]
    rcases hsplit with h | h <;> rw [h]
    · exact ih a
    · exact ih q

theorem nanminL_data_cases {l : List Val} (h : IsDataList l) :
    nanminL l = Val.nan ∨ ∃ r, nanminL l = Val.num r := by
  unfold nanminL
  rw [validVals_eq_map_num h]
  rcases hq : qvals l with _ | ⟨q, qs⟩
  · exact Or.inl rfl
  · rw [List.map_cons]
    exact Or.inr (foldl_vmin_map_num qs q)

theorem nanmaxL_data_cases {l : List Val} (h : IsDataList l) :
    nanmaxL l = Val.nan ∨ ∃ r, nanmaxL l = Val.num r := by
  unfold nanmaxL
  rw [validVals_eq_map_num h]
  rcases hq : qvals l with _ | ⟨q, qs⟩
  · exact Or.inl rfl
  · rw [List.map_cons]
    exact Or.inr (foldl_vmax_map_num qs q)

theorem sub_data_cases {a b : Val}
    (ha : a = Val.nan ∨ ∃ q, a = Val.num q)
    (hb : b = Val.nan ∨ ∃ q, b = Val.num q) :
    Val.sub a b = Val.nan ∨ ∃ q, Val.sub a b = Val.num q := by
  rcases ha with rfl | ⟨qa, rfl⟩ <;> rcases hb with rfl | ⟨qb, rfl⟩
  · exact Or.inl rfl
  · exact Or.inl (nan_sub _)
  · exact Or.inl (sub_nan _)
  · exact Or.inr ⟨qa - qb, num_sub_num qa qb⟩

/-- On data-kind operands (a rational or NaN), dividing after the
multiplication by a rational equals multiplying after the division:
the two readings of the affine rescaling formula agree, division by
zero included. -/
theorem val_mulnum_div_comm (a r : Val)
    (ha : a = Val.nan ∨ ∃ q, a = Val.num q)
    (hr : r = Val.nan ∨ ∃ q, r = Val.num q) (dq : ℚ) :
    Val.div (Val.mul a (Val.num dq)) r =
      Val.mul (Val.div a r) (Val.num dq) := by
  rcases ha with rfl | ⟨qa, rfl⟩
  · rw [nan_mul, nan_div, nan_mul]
  · rcases hr with rfl | ⟨qr, rfl⟩
    · rfl
    · by_cases hz : qr = 0
      · subst hz
        rw [num_mul_num]
        have e1 : Val.div (Val.num qa) (Val.num 0) =
            (if 0 < qa then Val.inf
             else if qa < 0 then Val.negInf else Val.nan) := by
          simp [Val.div]
        have e2 : Val.div (Val.num (qa * dq)) (Val.num 0) =
            (if 0 < qa * dq then Val.inf
             else if qa * dq < 0 then Val.negInf else Val.nan) := by
          simp [Val.div]
        rw [e1, e2]
        rcases lt_trichotomy qa 0 with hqa | rfl | hqa <;>
          rcases lt_trichotomy dq 0 with hdq | rfl | hdq
        · rw [if_pos (mul_pos_of_neg_of_neg hqa hdq),
            if_neg (asymm hqa), if_pos hqa]
          simp [Val.mul, hdq, asymm hdq]
        · rw [mul_zero, if_neg (lt_irrefl 0), if_neg (lt_irrefl 0),
            if_neg (asymm hqa), if_pos hqa]
          simp [Val.mul]
        · rw [if_neg (asymm (mul_neg_of_neg_of_pos hqa hdq)),
            if_pos (mul_neg_of_neg_of_pos hqa hdq),
            if_neg (asymm hqa), if_pos hqa]
          simp [Val.mul, hdq, asymm hdq]
        · simp [Val.mul]
        · simp [Val.mul]
        · simp [Val.mul]
        · rw [if_neg (asymm (mul_neg_of_pos_of_neg hqa hdq)),
            if_pos (mul_neg_of_pos_of_neg hqa hdq), if_pos hqa]
          simp [Val.mul, hdq, asymm hdq]
        · rw [mul_zero, if_neg (lt_irrefl 0), if_neg (lt_irrefl 0),
            if_pos hqa]
          simp [Val.mul]
        · rw [if_pos (mul_pos hqa hdq), if_pos hqa]
          simp [Val.mul, hdq, asymm hdq]
      · rw [num_mul_num, num_div_num _ _ hz, num_div_num _ _ hz,
          num_mul_num, div_mul_eq_mul_div]

/-! ### Element access through the transforms -/

theorem getD_map_of_lt {α β : Type} (f : α → β) (l : List α) (i : ℕ)
    (d : β) (d' : α) (h : i < l.length) :
    (l.map f).getD i d = f (l.getD i d') := by
  rw [List.getD_eq_getElem _ _ (by simpa using h),
    List.getD_eq_getElem _ _ h, List.getElem_map]

theorem range_map_getD (n : ℕ) (f : ℕ → Val) (di : ℕ) (h : di < n)
    (d : Val) : ((List.range n).map f).getD di d = f di := by
  rw [getD_map_of_lt f _ di d 0 (by simpa using h)]
  congr 1
  rw [List.getD_eq_getElem _ _ (by simpa using h)]
  exact List.getElem_range _ _

theorem range_map_getD' {β : Type} (n : ℕ) (f : ℕ → β) (i : ℕ)
    (h : i < n) (d : β) :
    ((List.range n).map f).getD i d = f i := by
  rw [getD_map_of_lt f _ i d 0 (by simpa using h)]
  congr 1
  rw [List.getD_eq_getElem _ _ (by simpa using h)]
  exact List.getElem_range _ _

/-- With a valid interval and the canonical shape recorded at fit, the
range scaler reaches its rescaling branch. -/
theorem minMaxTransform_ok (vr : ℚ × ℚ) (n : ℕ) (X : RawDataset)
    (hlt : vr.1 < vr.2) :
    minMaxTransform ⟨vr, none, none, some (n, maxLenOf X, dOf X)⟩ X =
      ([], Except.ok ((toTSDataset X).map (fun ts =>
        ts.map (fun st =>
          (List.range (dOf X)).map (fun di =>
            (st.getD di Val.nan - nanminL (col ts di)) *
                Val.num (vr.2 - vr.1) /
                (nanmaxL (col ts di) - nanminL (col ts di)) +
              Val.num vr.1))))) := by
  have h1 : ¬ (vr.2 ≤ vr.1) := not_le.2 hlt
  simp [minMaxTransform, legacyWarnings, effRange, h1, checkDims]

/-- Elementwise description of the range scaler's output. -/
theorem minMax_entry (vr : ℚ × ℚ) (n : ℕ) (X : RawDataset) (i t di : ℕ)
    (hlt : vr.1 < vr.2) (hi : i < X.length) (ht : t < maxLenOf X)
    (hdi : di < dOf X) :
    ∃ out,
      (minMaxTransform ⟨vr, none, none, some (n, maxLenOf X, dOf X)⟩ X).2 =
        Except.ok out ∧
      entry out i t di =
        (entry (toTSDataset X) i t di -
            nanminL (col ((toTSDataset X).getD i []) di)) *
          Val.num (vr.2 - vr.1) /
          (nanmaxL (col ((toTSDataset X).getD i []) di) -
            nanminL (col ((toTSDataset X).getD i []) di)) +
        Val.num vr.1 := by
  refine ⟨_, congrArg Prod.snd (minMaxTransform_ok vr n X hlt), ?_⟩
  have hi' : i < (toTSDataset X).length := by
    rw [toTSDataset_length]; exact hi
  have hts : ((toTSDataset X).getD i []).length = maxLenOf X :=
    toTSDataset_series_length hi
  unfold entry
  rw [getD_map_of_lt _ _ i [] [] hi']
  rw [getD_map_of_lt _ _ t [] [] (by rw [hts]; exact ht)]
  rw [range_map_getD _ _ di hdi]

/-- With the canonical shape recorded at fit, the moment scaler reaches
its standardization branch. -/
theorem meanVarTransform_ok (mu sd : ℚ) (n : ℕ) (X : RawDataset) :
    meanVarTransform ⟨mu, sd, some (n, maxLenOf X, dOf X)⟩ X =
      Except.ok ((toTSDataset X).map (fun ts =>
        ts.map (fun st =>
          (List.range (dOf X)).map (fun di =>
            (st.getD di Val.nan - nanmeanL (col ts di)) * Val.num sd /
                (if nanstdL (col ts di) = Val.num 0 then Val.num 1
                 else nanstdL (col ts di)) +
              Val.num mu)))) := by
  simp [meanVarTransform, checkDims]

/-- Elementwise description of the moment scaler's output. -/
theorem meanVar_entry (mu sd : ℚ) (n : ℕ) (X : RawDataset) (i t di : ℕ)
    (hi : i < X.length) (ht : t < maxLenOf X) (hdi : di < dOf X) :
    ∃ out,
      meanVarTransform ⟨mu, sd, some (n, maxLenOf X, dOf X)⟩ X =
        Except.ok out ∧
      entry out i t di =
        (entry (toTSDataset X) i t di -
            nanmeanL (col ((toTSDataset X).getD i []) di)) * Val.num sd /
          (if nanstdL (col ((toTSDataset X).getD i []) di) = Val.num 0
           then Val.num 1
           else nanstdL (col ((toTSDataset X).getD i []) di)) +
        Val.num mu := by
  refine ⟨_, meanVarTransform_ok mu sd n X, ?_⟩
  have hi' : i < (toTSDataset X).length := by
    rw [toTSDataset_length]; exact hi
  have hts : ((toTSDataset X).getD i []).length = maxLenOf X :=
    toTSDataset_series_length hi
  unfold entry
  rw [getD_map_of_lt _ _ i [] [] hi']
  rw [getD_map_of_lt _ _ t [] [] (by rw [hts]; exact ht)]
  rw [range_map_getD _ _ di hdi]

/-- Entries of a canonical padded series sit in its columns. -/
theorem entry_mem_col (X' : Dataset) (i t di : ℕ)
    (ht : t < (X'.getD i []).length) :
    entry X' i t di ∈ col (X'.getD i []) di := by
  unfold entry col
  rw [List.getD_eq_getElem _ _ ht]
  exact List.mem_map.2 ⟨_, List.getElem_mem _, rfl⟩

/-- The result of the range scaler depends on the scaler state only
through the effective interval and the recorded fit shape. -/
theorem minMaxTransform_snd_eq (s1 s2 : MinMaxScaler) (X : RawDataset)
    (h1 : effRange s1 = effRange s2) (h2 : s1.fitShape = s2.fitShape) :
    (minMaxTransform s1 X).2 = (minMaxTransform s2 X).2 := by
  by_cases hc : (effRange s2).2 ≤ (effRange s2).1
  · simp [minMaxTransform, h1, hc]
  · rcases hfs : s2.fitShape with _ | fd
    · simp [minMaxTransform, h1, h2, hfs, hc]
    · by_cases hd : checkDims X fd <;>
        simp [minMaxTransform, h1, h2, hfs, hc, hd]

/-! ### Interpolation lemmas for the resampler -/

theorem linspace01_length (n : ℕ) : (linspace01 n).length = n := by
  unfold linspace01
  by_cases h : n = 1 <;> simp [h]

theorem linspace01_getD_zero (n : ℕ) (hn : 2 ≤ n) :
    (linspace01 n).getD 0 0 = 0 := by
  unfold linspace01
  rw [if_neg (by omega)]
  rw [range_map_getD' _ _ 0 (by omega)]
  simp

theorem linspace01_getD_last (n : ℕ) (hn : 2 ≤ n) :
    (linspace01 n).getD (n - 1) 0 = 1 := by
  unfold linspace01
  rw [if_neg (by omega)]
  rw [range_map_getD' _ _ (n - 1) (by omega)]
  have hcast : ((n - 1 : ℕ) : ℚ) = (n : ℚ) - 1 := by
    push_cast [Nat.cast_sub (by omega : 1 ≤ n)]
    ring
  rw [hcast]
  have hne : (n : ℚ) - 1 ≠ 0 := by
    have : (2 : ℚ) ≤ (n : ℚ) := by exact_mod_cast hn
    linarith
  exact div_self hne

theorem interpIdx_zero (L : ℕ) : interpIdx L 0 = 0 := by
  simp [interpIdx]

theorem interpIdx_one (L : ℕ) (hL : 2 ≤ L) : interpIdx L 1 = L - 2 := by
  unfold interpIdx
  have hcast : (1 : ℚ) * ((L : ℚ) - 1) = ((L - 1 : ℕ) : ℚ) := by
    push_cast [Nat.cast_sub (by omega : 1 ≤ L)]
    ring
  rw [hcast, Int.floor_natCast, Int.toNat_natCast]
  omega

theorem slinearEval_at_zero (L : ℕ) (ys : List Val) (q0 q1 : ℚ)
    (h0 : ys.getD 0 Val.nan = Val.num q0)
    (h1 : ys.getD 1 Val.nan = Val.num q1) :
    slinearEval L ys 0 = Val.num q0 := by
  unfold slinearEval
  rw [interpIdx_zero]
  simp only [Nat.cast_zero, zero_mul, zero_sub, neg_zero, sub_zero,
    Nat.zero_add, zero_add]
  rw [h0, h1, num_mul_num, num_mul_num, num_add_num]
  rw [show (1 : ℚ) * q0 + 0 * q1 = q0 by ring]

theorem slinearEval_at_one (L : ℕ) (ys : List Val) (qa qb : ℚ)
    (hL : 2 ≤ L)
    (ha : ys.getD (L - 2) Val.nan = Val.num qa)
    (hb : ys.getD (L - 1) Val.nan = Val.num qb) :
    slinearEval L ys 1 = Val.num qb := by
  unfold slinearEval
  rw [interpIdx_one L hL]
  have hidx : L - 2 + 1 = L - 1 := by omega
  rw [hidx, ha, hb]
  have hα : (1 : ℚ) * ((L : ℚ) - 1) - ((L - 2 : ℕ) : ℚ) = 1 := by
    push_cast [Nat.cast_sub (by omega : 2 ≤ L)]
    ring
  rw [hα]
  rw [num_mul_num, num_mul_num, num_add_num]
  rw [show (1 - 1 : ℚ) * qa + 1 * qb = qb by ring]

theorem col_take_getD (ts : Series) (L di t : ℕ) (ht : t < L)
    (hle : L ≤ ts.length) :
    (col (ts.take L) di).getD t Val.nan = (ts.getD t []).getD di Val.nan := by
  unfold col
  have hlen : (ts.take L).length = L := by
    rw [List.length_take]
    omega
  rw [getD_map_of_lt _ _ t Val.nan [] (by rw [hlen]; exact ht)]
  congr 1
  rw [List.getD_eq_getElem _ _ (by rw [hlen]; exact ht),
    List.getD_eq_getElem _ _ (lt_of_lt_of_le ht hle)]
  exact List.getElem_take _

/-- Inversion of a successful resampling with target size other than 1:
the per-series node count gate passed and the output is the interpolation
of every series at the evenly spaced queries. -/
theorem resampler_ok_inv (sz_ : ℕ) (X : RawDataset) (out : Dataset)
    (hsz : sz_ ≠ 1)
    (hok : resamplerTransform sz_ X = Except.ok out) :
    ((toTSDataset X).all (fun ts =>
      2 ≤ (if checkEqualSize (toTSDataset X) then maxLenOf X
           else tsSize ts)) = true) ∧
    out = (toTSDataset X).map (fun ts =>
      (linspace01 sz_).map (fun q =>
        (List.range (dOf X)).map (fun di =>
          slinearEval
            (if checkEqualSize (toTSDataset X) then maxLenOf X
             else tsSize ts)
            (col (ts.take (if checkEqualSize (toTSDataset X) then maxLenOf X
                           else tsSize ts)) di) q))) := by
  unfold resamplerTransform at hok
  rw [if_neg hsz] at hok
  by_cases hall : ((toTSDataset X).all (fun ts =>
      2 ≤ (if checkEqualSize (toTSDataset X) then maxLenOf X
           else tsSize ts)) = true)
  · rw [if_pos hall] at hok
    exact ⟨hall, (Except.ok.inj hok).symm⟩
  · rw [if_neg hall] at hok
    cases hok

/-- Elementwise description of a successful resampling with target size
other than 1, together with the node-count bound for the series. -/
theorem resampler_entry (sz_ : ℕ) (X : RawDataset) (out : Dataset)
    (i t di : ℕ) (hsz : sz_ ≠ 1)
    (hok : resamplerTransform sz_ X = Except.ok out)
    (hi : i < X.length) (ht : t < sz_) (hdi : di < dOf X) :
    2 ≤ (if checkEqualSize (toTSDataset X) then maxLenOf X
         else tsSize ((toTSDataset X).getD i [])) ∧
    entry out i t di =
      slinearEval
        (if checkEqualSize (toTSDataset X) then maxLenOf X
         else tsSize ((toTSDataset X).getD i []))
        (col (((toTSDataset X).getD i []).take
          (if checkEqualSize (toTSDataset X) then maxLenOf X
           else tsSize ((toTSDataset X).getD i []))) di)
        ((linspace01 sz_).getD t 0) := by
  obtain ⟨hall, rfl⟩ := resampler_ok_inv sz_ X out hsz hok
  have hi' : i < (toTSDataset X).length := by
    rw [toTSDataset_length]; exact hi
  constructor
  · have hmem : (toTSDataset X).getD i [] ∈ toTSDataset X := by
      rw [List.getD_eq_getElem _ _ hi']
      exact List.getElem_mem _
    have hx := (List.all_eq_true.1 hall) _ hmem
    simpa using hx
  · unfold entry
    rw [getD_map_of_lt _ _ i [] [] hi']
    rw [getD_map_of_lt _ _ t [] 0 (by rw [linspace01_length]; exact ht)]
    rw [range_map_getD _ _ di hdi]

/-! ### The claims -/

/-- Counterexample to C2 as stated: a series of valid length `L = 1`
(the dataset `[[5]]`) with target size `sz = 2` does not produce an
output at all — scipy's `interp1d` refuses fewer than two interpolation
nodes — so the endpoint guarantee fails for `L = 1`. -/
theorem resampler_short_series_C2_counterexample :
    resamplerTransform 2 [[[Val.num 5]]] =
      Except.error RErr.interpTooFewPoints := by
  with_unfolding_all rfl

/-- Claim C2 (amended): for a successful resampling with target size
`sz ≥ 2`, consider a series whose interpolation node count `L` (the
dataset maximum length when the dataset is equal-size, else the series'
own valid length — necessarily `L ≥ 2` for the call to succeed) and
whose used prefix holds no missing value in the inspected dimension:
the first output step equals input step 0 and the last output step
equals input step `L - 1`, exactly, per dimension. -/
theorem resampler_endpoints_C2 (sz_ : ℕ) (X : RawDataset) (out : Dataset)
    (i di L : ℕ) (hsz : 2 ≤ sz_)
    (hok : resamplerTransform sz_ X = Except.ok out)
    (hi : i < X.length) (hdi : di < dOf X)
    (hL : L = (if checkEqualSize (toTSDataset X) then maxLenOf X
               else tsSize ((toTSDataset X).getD i [])))
    (hfin : ∀ t, t < L →
      ∃ q : ℚ, entry (toTSDataset X) i t di = Val.num q) :
    entry out i 0 di = entry (toTSDataset X) i 0 di ∧
      entry out i (sz_ - 1) di = entry (toTSDataset X) i (L - 1) di := by
  have hsz1 : sz_ ≠ 1 := by omega
  have hts : ((toTSDataset X).getD i []).length = maxLenOf X :=
    toTSDataset_series_length hi
  obtain ⟨hL2a, he0⟩ :=
    resampler_entry sz_ X out i 0 di hsz1 hok hi (by omega) hdi
  obtain ⟨_, he1⟩ :=
    resampler_entry sz_ X out i (sz_ - 1) di hsz1 hok hi (by omega) hdi
  rw [← hL] at hL2a he0 he1
  have hLle : L ≤ ((toTSDataset X).getD i []).length := by
    rw [hL]
    by_cases he : checkEqualSize (toTSDataset X)
    · rw [if_pos he, hts]
    · rw [if_neg he]
      exact tsSize_le_length _
  obtain ⟨q0, hq0⟩ := hfin 0 (by omega)
  obtain ⟨q1, hq1⟩ := hfin 1 (by omega)
  obtain ⟨qa, hqa⟩ := hfin (L - 2) (by omega)
  obtain ⟨qb, hqb⟩ := hfin (L - 1) (by omega)
  have h0 : (col (((toTSDataset X).getD i []).take L) di).getD 0 Val.nan =
      Val.num q0 := by
    rw [col_take_getD _ _ _ _ (by omega) hLle]
    exact hq0
  have h1 : (col (((toTSDataset X).getD i []).take L) di).getD 1 Val.nan =
      Val.num q1 := by
    rw [col_take_getD _ _ _ _ (by omega) hLle]
    exact hq1
  have ha : (col (((toTSDataset X).getD i []).take L) di).getD (L - 2)
      Val.nan = Val.num qa := by
    rw [col_take_getD _ _ _ _ (by omega) hLle]
    exact hqa
  have hb : (col (((toTSDataset X).getD i []).take L) di).getD (L - 1)
      Val.nan = Val.num qb := by
    rw [col_take_getD _ _ _ _ (by omega) hLle]
    exact hqb
  constructor
  · rw [he0, linspace01_getD_zero sz_ hsz,
      slinearEval_at_zero L _ q0 q1 h0 h1]
    exact hq0.symm
  · rw [he1, linspace01_getD_last sz_ hsz,
      slinearEval_at_one L _ qa qb hL2a ha hb]
    exact hqb.symm

/-- Witness for the amended C2: resampling `[0, 3, 6]` to size 5 keeps
the endpoints 0 and 6 exactly. -/
theorem resampler_endpoints_C2_witness :
    entry [[[Val.num 0], [Val.num (3 / 2)], [Val.num 3], [Val.num (9 / 2)],
        [Val.num 6]]] 0 0 0 =
      entry (toTSDataset [[[Val.num 0], [Val.num 3], [Val.num 6]]]) 0 0 0 ∧
    entry [[[Val.num 0], [Val.num (3 / 2)], [Val.num 3], [Val.num (9 / 2)],
        [Val.num 6]]] 0 (5 - 1) 0 =
      entry (toTSDataset [[[Val.num 0], [Val.num 3], [Val.num 6]]]) 0
        (3 - 1) 0 := by
  refine resampler_endpoints_C2 5 [[[Val.num 0], [Val.num 3], [Val.num 6]]]
    _ 0 0 3 (by norm_num) (by with_unfolding_all rfl) (by decide) (by decide)
    (by with_unfolding_all rfl) ?_
  intro t ht
  interval_cases t
  · exact ⟨0, by with_unfolding_all rfl⟩
  · exact ⟨3, by with_unfolding_all rfl⟩
  · exact ⟨6, by with_unfolding_all rfl⟩

/-- Claim C4: with the effective target interval `(lo, hi)` (after any
legacy overrides), `lo ≥ hi` makes the range scaler's transform fail with
the invalid-configuration error carrying the offending pair, before any
computation on the data (the result does not depend on the input); with
`lo < hi` no invalid-configuration error is ever raised. -/
theorem minmax_invalid_interval_C4 (s : MinMaxScaler) (X Y : RawDataset) :
    ((effRange s).2 ≤ (effRange s).1 →
      (minMaxTransform s X).2 =
          Except.error
            (SErr.invalidConfiguration (effRange s).1 (effRange s).2) ∧
        (minMaxTransform s X).2 = (minMaxTransform s Y).2) ∧
    ((effRange s).1 < (effRange s).2 →
      ∀ lo hi, (minMaxTransform s X).2 ≠
        Except.error (SErr.invalidConfiguration lo hi)) := by
  constructor
  · intro h
    constructor <;> simp [minMaxTransform, h]
  · intro h lo hi
    have h' : ¬ ((effRange s).2 ≤ (effRange s).1) := not_le.2 h
    rcases hfs : s.fitShape with _ | fd
    · simp [minMaxTransform, h', hfs]
    · by_cases hd : checkDims X fd <;> simp [minMaxTransform, h', hfs, hd]

/-- Witness for C4 at a concrete inverted and a concrete valid
interval. -/
theorem minmax_invalid_interval_C4_witness :
    (minMaxTransform ⟨(2, 1), none, none, none⟩ [[[Val.num 0]]]).2 =
        Except.error (SErr.invalidConfiguration 2 1) ∧
      (minMaxTransform ⟨(0, 1), none, none, none⟩ [[[Val.num 0]]]).2 ≠
        Except.error (SErr.invalidConfiguration 0 1) := by
  constructor
  · exact ((minmax_invalid_interval_C4 ⟨(2, 1), none, none, none⟩
      [[[Val.num 0]]] [[[Val.num 0]]]).1 (by norm_num [effRange])).1
  · exact (minmax_invalid_interval_C4 ⟨(0, 1), none, none, none⟩
      [[[Val.num 0]]] [[[Val.num 0]]]).2 (by norm_num [effRange]) 0 1

/-- Claim C5: both scalers' `fit` records the canonical
`(n_series, max_len, d)` shape, leaves the configuration unchanged and
learns nothing from the values (datasets of equal shape yield equal
fitted scalers); a transform input whose dimensionality differs from the
recorded `d` fails with the shape-mismatch error, surfaced unchanged. -/
theorem scalers_fit_shape_C5 :
    (∀ (s : MinMaxScaler) (X : RawDataset),
        minMaxFit s X =
          ⟨s.value_range, s.min?, s.max?,
            some (X.length, maxLenOf X, dOf X)⟩) ∧
    (∀ (u : MeanVarScaler) (X : RawDataset),
        meanVarFit u X = ⟨u.mu, u.std, some (X.length, maxLenOf X, dOf X)⟩) ∧
    (∀ (s : MinMaxScaler) (X Y : RawDataset), dims X = dims Y →
        minMaxFit s X = minMaxFit s Y) ∧
    (∀ (u : MeanVarScaler) (X Y : RawDataset), dims X = dims Y →
        meanVarFit u X = meanVarFit u Y) ∧
    (∀ (vr : ℚ × ℚ) (n Lf df : ℕ) (Z : RawDataset),
        vr.1 < vr.2 → dOf Z ≠ df →
        (minMaxTransform ⟨vr, none, none, some (n, Lf, df)⟩ Z).2 =
          Except.error SErr.shapeMismatch) ∧
    (∀ (mu sd : ℚ) (n Lf df : ℕ) (Z : RawDataset), dOf Z ≠ df →
        meanVarTransform ⟨mu, sd, some (n, Lf, df)⟩ Z =
          Except.error SErr.shapeMismatch) := by
  refine ⟨?_, ?_, ?_, ?_, ?_, ?_⟩
  · intro s X; rfl
  · intro u X; rfl
  · intro s X Y h
    unfold minMaxFit
    rw [show dims X = dims Y from h]
  · intro u X Y h
    unfold meanVarFit
    rw [show dims X = dims Y from h]
  · intro vr n Lf df Z hlt hd
    have h' : ¬ (vr.2 ≤ vr.1) := not_le.2 hlt
    simp [minMaxTransform, effRange, h', checkDims, hd]
  · intro mu sd n Lf df Z hd
    simp [meanVarTransform, checkDims, hd]

/-- Witness for C5 at concrete datasets of equal shape and at a concrete
dimensionality mismatch. -/
theorem scalers_fit_shape_C5_witness :
    minMaxFit ⟨(0, 1), none, none, none⟩ [[[Val.num 1], [Val.num 2]]] =
        minMaxFit ⟨(0, 1), none, none, none⟩ [[[Val.num 3], [Val.num 4]]] ∧
      (minMaxTransform ⟨(0, 1), none, none, some (1, 1, 2)⟩
          [[[Val.num 0]]]).2 = Except.error SErr.shapeMismatch ∧
      meanVarTransform ⟨0, 1, some (1, 1, 2)⟩ [[[Val.num 0]]] =
        Except.error SErr.shapeMismatch := by
  refine ⟨?_, ?_, ?_⟩
  · exact scalers_fit_shape_C5.2.2.1 _ _ _ (by decide)
  · exact scalers_fit_shape_C5.2.2.2.2.1 (0, 1) 1 1 2 _ (by norm_num)
      (by decide)
  · exact scalers_fit_shape_C5.2.2.2.2.2 0 1 1 1 2 _ (by decide)

/-- Claim C8: a supplied legacy `min` (resp. `max`) overrides the lower
(resp. upper) end of `value_range` before validation and scaling, one
deprecation warning is emitted per supplied legacy parameter, and the
call's result is exactly that of the clean configuration with the
overridden interval (the warning does not abort the call). -/
theorem minmax_legacy_overlay_C8 (vr : ℚ × ℚ) (m M : ℚ)
    (fs : Option (ℕ × ℕ × ℕ)) (X : RawDataset) :
    (legacyWarnings ⟨vr, some m, some M, fs⟩ =
        [Warn.deprecatedMin, Warn.deprecatedMax] ∧
      effRange ⟨vr, some m, some M, fs⟩ = (m, M) ∧
      (minMaxTransform ⟨vr, some m, some M, fs⟩ X).2 =
        (minMaxTransform ⟨(m, M), none, none, fs⟩ X).2) ∧
    (legacyWarnings ⟨vr, some m, none, fs⟩ = [Warn.deprecatedMin] ∧
      effRange ⟨vr, some m, none, fs⟩ = (m, vr.2) ∧
      (minMaxTransform ⟨vr, some m, none, fs⟩ X).2 =
        (minMaxTransform ⟨(m, vr.2), none, none, fs⟩ X).2) ∧
    (legacyWarnings ⟨vr, none, some M, fs⟩ = [Warn.deprecatedMax] ∧
      effRange ⟨vr, none, some M, fs⟩ = (vr.1, M) ∧
      (minMaxTransform ⟨vr, none, some M, fs⟩ X).2 =
        (minMaxTransform ⟨(vr.1, M), none, none, fs⟩ X).2) := by
  refine ⟨⟨rfl, rfl, ?_⟩, ⟨rfl, rfl, ?_⟩, ⟨rfl, rfl, ?_⟩⟩ <;>
    exact minMaxTransform_snd_eq _ _ _ rfl rfl

/-- Claim C9: every transform is a pure function: repeated calls with
identical configuration and input give identical results, and the two
scalers' results depend on the scaler state only through its
configuration fields and the recorded fit shape. -/
theorem transforms_deterministic_C9 (sz : ℕ) (X0 : RawDataset)
    (s : MinMaxScaler) (X1 : RawDataset) (u : MeanVarScaler)
    (X2 : RawDataset) :
    (resamplerTransform sz X0 = resamplerTransform sz X0) ∧
    (minMaxTransform s X1 = minMaxTransform s X1) ∧
    (meanVarTransform u X2 = meanVarTransform u X2) ∧
    (∀ s' : MinMaxScaler, s'.value_range = s.value_range →
      s'.min? = s.min? → s'.max? = s.max? → s'.fitShape = s.fitShape →
      minMaxTransform s' X1 = minMaxTransform s X1) ∧
    (∀ u' : MeanVarScaler, u'.mu = u.mu → u'.std = u.std →
      u'.fitShape = u.fitShape →
      meanVarTransform u' X2 = meanVarTransform u X2) := by
  refine ⟨rfl, rfl, rfl, ?_, ?_⟩
  · intro s' h1 h2 h3 h4
    have hs : s' = s := by
      cases s'; cases s
      simp_all
    rw [hs]
  · intro u' h1 h2 h3
    have hu : u' = u := by
      cases u'; cases u
      simp_all
    rw [hu]

/-- Witness for C9 at concrete scalers with equal fields. -/
theorem transforms_deterministic_C9_witness :
    minMaxTransform ⟨(0, 1), none, none, some (1, 1, 1)⟩ [[[Val.num 2]]] =
        minMaxTransform ⟨(0, 1), none, none, some (1, 1, 1)⟩
          [[[Val.num 2]]] ∧
      meanVarTransform ⟨0, 1, some (1, 1, 1)⟩ [[[Val.num 2]]] =
        meanVarTransform ⟨0, 1, some (1, 1, 1)⟩ [[[Val.num 2]]] := by
  have h := transforms_deterministic_C9 1 [[[Val.num 2]]]
    ⟨(0, 1), none, none, some (1, 1, 1)⟩ [[[Val.num 2]]]
    ⟨0, 1, some (1, 1, 1)⟩ [[[Val.num 2]]]
  exact ⟨h.2.2.2.1 _ rfl rfl rfl rfl, h.2.2.2.2 _ rfl rfl rfl⟩

/-- Claim C10: with no previous `fit` (no recorded shape), both scalers'
transform fails with an exception on every input: the moment scaler
always with the not-fitted error; the range scaler with the
invalid-configuration error when the effective interval is inverted and
the not-fitted error otherwise. -/
theorem transform_before_fit_C10 (vr : ℚ × ℚ) (mn mx : Option ℚ)
    (mu sd : ℚ) (X Y : RawDataset) :
    (∃ e, (minMaxTransform ⟨vr, mn, mx, none⟩ X).2 = Except.error e) ∧
      meanVarTransform ⟨mu, sd, none⟩ Y = Except.error SErr.notFitted := by
  constructor
  · by_cases hc : (effRange ⟨vr, mn, mx, none⟩).2 ≤
        (effRange ⟨vr, mn, mx, none⟩).1
    · exact ⟨SErr.invalidConfiguration (effRange ⟨vr, mn, mx, none⟩).1
        (effRange ⟨vr, mn, mx, none⟩).2, by simp [minMaxTransform, hc]⟩
    · exact ⟨SErr.notFitted, by simp [minMaxTransform, hc]⟩
  · rfl

/-- Claim C6: with target size 1, the resampler takes the aggregation
branch: each output series is a single step whose entry in each dimension
is the nan-mean of that series' column (no interpolation). -/
theorem resampler_unit_sz_C6 (X : RawDataset) (i di : ℕ)
    (hi : i < X.length) (hdi : di < dOf X) :
    resamplerTransform 1 X =
        Except.ok (transformUnitSz (toTSDataset X) (dOf X)) ∧
      ((transformUnitSz (toTSDataset X) (dOf X)).getD i []).length = 1 ∧
      entry (transformUnitSz (toTSDataset X) (dOf X)) i 0 di =
        nanmeanL (col ((toTSDataset X).getD i []) di) := by
  have hi' : i < (toTSDataset X).length := by
    rw [toTSDataset_length]; exact hi
  refine ⟨rfl, ?_, ?_⟩
  · unfold transformUnitSz
    rw [getD_map_of_lt _ _ i [] [] hi']
    rfl
  · unfold entry transformUnitSz
    rw [getD_map_of_lt _ _ i [] [] hi']
    rw [List.getD_cons_zero]
    rw [range_map_getD _ _ di hdi]

/-- Claim C1: on a series constant in dimension `di` (every valid entry
equals `c`, with at least one valid entry — which covers the
single-valid-sample case), the range scaler's span is exactly zero, no
guard intervenes, and every output entry of that dimension is the
division-by-zero outcome: NaN, a not-a-number value, faithfully
emitted. -/
theorem minmax_constant_dim_divzero_C1 (vr : ℚ × ℚ) (n : ℕ)
    (X : RawDataset) (i t di : ℕ) (c : ℚ)
    (hlt : vr.1 < vr.2)
    (hcol : ∀ v ∈ col ((toTSDataset X).getD i []) di,
      v = Val.nan ∨ v = Val.num c)
    (hvalid : Val.num c ∈ col ((toTSDataset X).getD i []) di)
    (hi : i < X.length) (ht : t < maxLenOf X) (hdi : di < dOf X) :
    ∃ out,
      (minMaxTransform ⟨vr, none, none, some (n, maxLenOf X, dOf X)⟩ X).2 =
        Except.ok out ∧
      Val.sub (nanmaxL (col ((toTSDataset X).getD i []) di))
          (nanminL (col ((toTSDataset X).getD i []) di)) = Val.num 0 ∧
      entry out i t di = Val.nan := by
  obtain ⟨out, hok, hentry⟩ := minMax_entry vr n X i t di hlt hi ht hdi
  have hmn := nanminL_const hcol hvalid
  have hmx := nanmaxL_const hcol hvalid
  refine ⟨out, hok, ?_, ?_⟩
  · rw [hmn, hmx, num_sub_num]
    simp
  · rw [hentry, hmn, hmx]
    have hx := hcol _ (entry_mem_col (toTSDataset X) i t di
      (by rw [toTSDataset_series_length hi]; exact ht))
    rcases hx with hx | hx <;> rw [hx] <;>
      simp [val_sub_def, val_mul_def, val_div_def, val_add_def, nan_sub,
        nan_mul, nan_div, nan_add, num_sub_num, num_mul_num, zero_div_zero]

/-- Witness for C1 at the constant univariate series `[5, 5]`. -/
theorem minmax_constant_dim_divzero_C1_witness :
    ∃ out,
      (minMaxTransform ⟨(0, 1), none, none,
          some (1, maxLenOf [[[Val.num 5], [Val.num 5]]],
            dOf [[[Val.num 5], [Val.num 5]]])⟩
          [[[Val.num 5], [Val.num 5]]]).2 = Except.ok out ∧
      Val.sub (nanmaxL (col ((toTSDataset
            [[[Val.num 5], [Val.num 5]]]).getD 0 []) 0))
          (nanminL (col ((toTSDataset
            [[[Val.num 5], [Val.num 5]]]).getD 0 []) 0)) = Val.num 0 ∧
      entry out 0 0 0 = Val.nan := by
  have hcoleq : col ((toTSDataset [[[Val.num 5], [Val.num 5]]]).getD 0 []) 0 =
      [Val.num 5, Val.num 5] := by with_unfolding_all rfl
  refine minmax_constant_dim_divzero_C1 (0, 1) 1 _ 0 0 0 5 (by norm_num)
    ?_ ?_ (by decide) (by decide) (by decide)
  · rw [hcoleq]
    intro v hv
    rcases List.mem_cons.1 hv with rfl | hv'
    · exact Or.inr rfl
    · rcases List.mem_cons.1 hv' with rfl | hv''
      · exact Or.inr rfl
      · cases hv''
  · rw [hcoleq]
    exact List.mem_cons_self _ _

/-- Counterexample to C3 as stated: on `[NaN, 3, 3]` with `mu = 0` the
valid samples are constant, so the computed std is exactly zero and the
guard engages, yet the output value at the sentinel position is NaN, not
`mu`. -/
theorem meanvar_zero_std_C3_counterexample :
    nanstdL (col ((toTSDataset
        [[[Val.nan], [Val.num 3], [Val.num 3]]]).getD 0 []) 0) =
        Val.num 0 ∧
      meanVarTransform ⟨0, 1, some (1, 3, 1)⟩
          [[[Val.nan], [Val.num 3], [Val.num 3]]] =
        Except.ok [[[Val.nan], [Val.num 0], [Val.num 0]]] ∧
      entry [[[Val.nan], [Val.num 0], [Val.num 0]]] 0 0 0 ≠ Val.num 0 := by
  refine ⟨by with_unfolding_all rfl, by with_unfolding_all rfl, by decide⟩

/-- Claim C3 (amended): when the computed population standard deviation
of a series' dimension over valid non-missing steps is exactly zero, the
moment scaler substitutes 1 before dividing; every output value of that
dimension at a non-missing position equals the configured `mu`, while
missing positions re-emit the sentinel unchanged. -/
theorem meanvar_zero_std_guard_C3 (mu sd : ℚ) (n : ℕ) (X : RawDataset)
    (i t di : ℕ) (hi : i < X.length) (ht : t < maxLenOf X)
    (hdi : di < dOf X)
    (hdata : IsDataList (col ((toTSDataset X).getD i []) di))
    (hstd : nanstdL (col ((toTSDataset X).getD i []) di) = Val.num 0) :
    ∃ out,
      meanVarTransform ⟨mu, sd, some (n, maxLenOf X, dOf X)⟩ X =
        Except.ok out ∧
      (entry (toTSDataset X) i t di = Val.nan →
        entry out i t di = Val.nan) ∧
      (entry (toTSDataset X) i t di ≠ Val.nan →
        entry out i t di = Val.num mu) := by
  obtain ⟨out, hok, hentry⟩ := meanVar_entry mu sd n X i t di hi ht hdi
  obtain ⟨hne, hmean, hconst⟩ := nanstd_zero_constant hdata hstd
  have hx := hconst _ (entry_mem_col (toTSDataset X) i t di
    (by rw [toTSDataset_series_length hi]; exact ht))
  refine ⟨out, hok, ?_, ?_⟩
  · intro hxn
    rw [hentry, hxn, hstd, hmean]
    simp [val_sub_def, val_mul_def, val_div_def, val_add_def, nan_sub,
      nan_mul, nan_div, nan_add]
  · intro hxn
    rcases hx with hx | hx
    · exact absurd hx hxn
    · rw [hentry, hx, hstd, hmean]
      simp [val_sub_def, val_mul_def, val_div_def, val_add_def,
        num_sub_num, num_mul_num, num_div_num, num_add_num]

/-- Witness for the amended C3 at the constant univariate series
`[3, 3]` with `mu = 7`. -/
theorem meanvar_zero_std_guard_C3_witness :
    ∃ out,
      meanVarTransform ⟨7, 1, some (1, maxLenOf [[[Val.num 3], [Val.num 3]]],
          dOf [[[Val.num 3], [Val.num 3]]])⟩
          [[[Val.num 3], [Val.num 3]]] = Except.ok out ∧
      (entry (toTSDataset [[[Val.num 3], [Val.num 3]]]) 0 0 0 = Val.nan →
        entry out 0 0 0 = Val.nan) ∧
      (entry (toTSDataset [[[Val.num 3], [Val.num 3]]]) 0 0 0 ≠ Val.nan →
        entry out 0 0 0 = Val.num 7) := by
  have hcoleq : col ((toTSDataset [[[Val.num 3], [Val.num 3]]]).getD 0 []) 0 =
      [Val.num 3, Val.num 3] := by with_unfolding_all rfl
  refine meanvar_zero_std_guard_C3 7 1 1 _ 0 0 0 (by decide) (by decide)
    (by decide) ?_ (by with_unfolding_all rfl)
  rw [hcoleq]
  intro v hv
  rcases List.mem_cons.1 hv with rfl | hv'
  · rfl
  · rcases List.mem_cons.1 hv' with rfl | hv''
    · rfl
    · cases hv''

/-- Claim C7: the range scaler computes per-series per-dimension nan-min
and nan-max, maps every entry through
`(value - min) / (max - min) * (hi - lo) + lo`, re-emits the sentinel at
sentinel positions, and on the spec's examples maps `[0, 3, 6]` to
`[1, 1.5, 2]` and `[NaN, 3, 6]` to `[NaN, 1, 2]` for the interval
`(1, 2)`. -/
theorem minmax_algorithm_C7 :
    (∀ (vr : ℚ × ℚ) (n : ℕ) (X : RawDataset) (i t di : ℕ),
      vr.1 < vr.2 → i < X.length → t < maxLenOf X → di < dOf X →
      IsDataList (col ((toTSDataset X).getD i []) di) →
      ∃ out,
        (minMaxTransform ⟨vr, none, none,
            some (n, maxLenOf X, dOf X)⟩ X).2 = Except.ok out ∧
        entry out i t di =
          Val.add
            (Val.mul
              (Val.div
                (Val.sub (entry (toTSDataset X) i t di)
                  (nanminL (col ((toTSDataset X).getD i []) di)))
                (Val.sub (nanmaxL (col ((toTSDataset X).getD i []) di))
                  (nanminL (col ((toTSDataset X).getD i []) di))))
              (Val.num (vr.2 - vr.1)))
            (Val.num vr.1) ∧
        (entry (toTSDataset X) i t di = Val.nan →
          entry out i t di = Val.nan)) ∧
    minMaxTransform ⟨(1, 2), none, none, some (1, 3, 1)⟩
        [[[Val.num 0], [Val.num 3], [Val.num 6]]] =
      ([], Except.ok [[[Val.num 1], [Val.num (3 / 2)], [Val.num 2]]]) ∧
    minMaxTransform ⟨(1, 2), none, none, some (1, 3, 1)⟩
        [[[Val.nan], [Val.num 3], [Val.num 6]]] =
      ([], Except.ok [[[Val.nan], [Val.num 1], [Val.num 2]]]) := by
  refine ⟨?_, by with_unfolding_all rfl, by with_unfolding_all rfl⟩
  intro vr n X i t di hlt hi ht hdi hdata
  obtain ⟨out, hok, hentry⟩ := minMax_entry vr n X i t di hlt hi ht hdi
  have hxmem := entry_mem_col (toTSDataset X) i t di
    (by rw [toTSDataset_series_length hi]; exact ht)
  have hxdata := isData_cases (hdata _ hxmem)
  have hmn := nanminL_data_cases hdata
  have hmx := nanmaxL_data_cases hdata
  refine ⟨out, hok, ?_, ?_⟩
  · rw [hentry]
    simp only [val_sub_def, val_mul_def, val_div_def, val_add_def]
    rw [val_mulnum_div_comm _ _ (sub_data_cases hxdata hmn)
      (sub_data_cases hmx hmn)]
  · intro hxn
    rw [hentry, hxn]
    simp [val_sub_def, val_mul_def, val_div_def, val_add_def, nan_sub,
      nan_mul, nan_div, nan_add]

/-- Witness for C7 at the spec's example `[0, 3, 6]`, interval `(1, 2)`,
entry `t = 1`. -/
theorem minmax_algorithm_C7_witness :
    ∃ out,
      (minMaxTransform ⟨(1, 2), none, none,
          some (1, maxLenOf [[[Val.num 0], [Val.num 3], [Val.num 6]]],
            dOf [[[Val.num 0], [Val.num 3], [Val.num 6]]])⟩
          [[[Val.num 0], [Val.num 3], [Val.num 6]]]).2 = Except.ok out ∧
      entry out 0 1 0 =
        Val.add
          (Val.mul
            (Val.div
              (Val.sub (entry (toTSDataset
                  [[[Val.num 0], [Val.num 3], [Val.num 6]]]) 0 1 0)
                (nanminL (col ((toTSDataset
                  [[[Val.num 0], [Val.num 3], [Val.num 6]]]).getD 0 []) 0)))
              (Val.sub (nanmaxL (col ((toTSDataset
                  [[[Val.num 0], [Val.num 3], [Val.num 6]]]).getD 0 []) 0))
                (nanminL (col ((toTSDataset
                  [[[Val.num 0], [Val.num 3], [Val.num 6]]]).getD 0 []) 0))))
            (Val.num ((1, 2).2 - (1, 2).1)))
          (Val.num (1, 2).1) ∧
      (entry (toTSDataset [[[Val.num 0], [Val.num 3], [Val.num 6]]]) 0 1 0 =
          Val.nan →
        entry out 0 1 0 = Val.nan) := by
  have hcoleq : col ((toTSDataset
      [[[Val.num 0], [Val.num 3], [Val.num 6]]]).getD 0 []) 0 =
      [Val.num 0, Val.num 3, Val.num 6] := by with_unfolding_all rfl
  refine minmax_algorithm_C7.1 (1, 2) 1 _ 0 1 0 (by norm_num) (by decide)
    (by decide) (by decide) ?_
  rw [hcoleq]
  intro v hv
  rcases List.mem_cons.1 hv with rfl | hv'
  · rfl
  · rcases List.mem_cons.1 hv' with rfl | hv''
    · rfl
    · rcases List.mem_cons.1 hv'' with rfl | hv3
      · rfl
      · cases hv3

/-- Witness for C6: the spec's example, the mean of `[0, 3, 6]`. -/
theorem resampler_unit_sz_C6_witness :
    (resamplerTransform 1 [[[Val.num 0], [Val.num 3], [Val.num 6]]] =
        Except.ok (transformUnitSz
          (toTSDataset [[[Val.num 0], [Val.num 3], [Val.num 6]]])
          (dOf [[[Val.num 0], [Val.num 3], [Val.num 6]]])) ∧
      ((transformUnitSz
          (toTSDataset [[[Val.num 0], [Val.num 3], [Val.num 6]]])
          (dOf [[[Val.num 0], [Val.num 3], [Val.num 6]]])).getD 0
            []).length = 1 ∧
      entry (transformUnitSz
          (toTSDataset [[[Val.num 0], [Val.num 3], [Val.num 6]]])
          (dOf [[[Val.num 0], [Val.num 3], [Val.num 6]]])) 0 0 0 =
        nanmeanL (col ((toTSDataset
          [[[Val.num 0], [Val.num 3], [Val.num 6]]]).getD 0 []) 0)) ∧
      nanmeanL (col ((toTSDataset
          [[[Val.num 0], [Val.num 3], [Val.num 6]]]).getD 0 []) 0) =
        Val.num 3 :=
  ⟨resampler_unit_sz_C6 _ 0 0 (by decide) (by decide),
    by with_unfolding_all rfl⟩

end Preproc
